import Mathlib

/-!
Verification development for the program-synthesis task environment of the
brain_coder single-task package (exercised by
src/research/brain_coder/single_task/code_tasks_test.py) and for the
float-precision JSON encoder in
src/research/object_detection/utils/json_utils.py.

The scoring core (code_tasks and the tape-machine interpreter it drives) is
not part of src/; only its test file is.  The `CodeTasks` namespace therefore
models that core from the specification: the instruction semantics of
section 4.1, the task families of section 4.2, the two scoring modes of
section 4.3 and the factory of section 4.4, with the numeric weighting pinned
down by the oracle values listed in section 8 of the specification.
-/

namespace CodeTasks

/-- Modelled from the spec: the Machine state of the tape interpreter
(section 4.1) - instruction pointer, tape pointer, tape cells, the number of
input values consumed so far, and the append-only output accumulator. -/
structure MState where
  codeptr : Nat
  cellptr : Nat
  cells : List Nat
  inptr : Nat
  output : List Nat
deriving DecidableEq

/-- Modelled from the spec: the precomputed brace-matching pass (section 4.1).
Matched open/close repeat-block delimiters are recorded as mutual jump pairs;
unmatched delimiters are simply absent from the map, and therefore later
resolve to themselves, which makes them no-ops during execution. -/
def bracemapAux : List Char → Nat → List Nat → List (Nat × Nat) → List (Nat × Nat)
  | [], _, _, acc => acc
  | c :: rest, pos, stack, acc =>
    if c = ('[') then bracemapAux rest (pos + 1) (pos :: stack) acc
    else if c = (']') then
      bracemapAux rest (pos + 1) stack.tail
        (if stack.isEmpty then acc else (stack.headD 0, pos) :: (pos, stack.headD 0) :: acc)
    else bracemapAux rest (pos + 1) stack acc

/-- Jump map of a program: association list of matching brace positions. -/
def buildBracemap (code : List Char) : List (Nat × Nat) := bracemapAux code 0 [] []

/-- Destination of a jump from position `p`: the matching brace when one was
recorded, and `p` itself (a no-op jump) for an unmatched delimiter. -/
def jumpTarget (bm : List (Nat × Nat)) (p : Nat) : Nat := (bm.lookup p).getD p

/-- Value of the cell under the tape pointer (0 for never-touched cells). -/
def curCell (s : MState) : Nat := s.cells.getD s.cellptr 0

/-- Modelled from the spec: one execution step of the Machine (section 4.1).
The alphabet is increment / decrement of the current cell (arithmetic wraps
modulo `base`), tape pointer moves (clamped at the left edge), emit, consume
(an exhausted input queue reads as 0), and the conditional repeat-block
delimiters resolved through the precomputed brace map.  Every step advances
the instruction pointer past the (possibly jumped-to) position. -/
def execStep (base : Nat) (code : List Char) (bm : List (Nat × Nat)) (input : List Nat)
    (s : MState) : MState :=
  let c := code.getD s.codeptr (' ')
  if c = ('>') then
    { s with codeptr := s.codeptr + 1, cellptr := s.cellptr + 1,
             cells := if s.cellptr + 1 < s.cells.length then s.cells else s.cells ++ [0] }
  else if c = ('<') then
    { s with codeptr := s.codeptr + 1, cellptr := s.cellptr - 1 }
  else if c = ('+') then
    { s with codeptr := s.codeptr + 1, cells := s.cells.set s.cellptr ((curCell s + 1) % base) }
  else if c = ('-') then
    { s with codeptr := s.codeptr + 1,
             cells := s.cells.set s.cellptr ((curCell s + (base - 1)) % base) }
  else if c = ('.') then
    { s with codeptr := s.codeptr + 1, output := s.output ++ [curCell s] }
  else if c = (',') then
    { s with codeptr := s.codeptr + 1, cells := s.cells.set s.cellptr (input.getD s.inptr 0),
             inptr := s.inptr + 1 }
  else if c = ('[') then
    { s with codeptr := (if curCell s = 0 then jumpTarget bm s.codeptr else s.codeptr) + 1 }
  else if c = (']') then
    { s with codeptr := (if curCell s = 0 then s.codeptr else jumpTarget bm s.codeptr) + 1 }
  else { s with codeptr := s.codeptr + 1 }

/-- Modelled from the spec: the designated no-op/padding character
(sections 3 and 8; the test file pads with this character). -/
def pad_char : Char := '['

/-- An occurrence of the designated padding character that the brace-matching
pass left unmatched.  Modelled from the spec: such a character is a
guaranteed no-op regardless of position (section 4.1 and glossary). -/
def isPadNoOp (code : List Char) (bm : List (Nat × Nat)) (p : Nat) : Bool :=
  (code.getD p (' ') == pad_char) && (bm.lookup p).isNone

/-- Advance the instruction pointer over consecutive padding no-ops without
consuming any step budget.  The bound `j` only forces termination; one pass
with `j` at least the code length crosses every no-op run. -/
def skipPad (code : List Char) (bm : List (Nat × Nat)) : Nat → MState → MState
  | 0, s => s
  | j + 1, s =>
    if s.codeptr < code.length ∧ isPadNoOp code bm s.codeptr = true then
      skipPad code bm j { s with codeptr := s.codeptr + 1 }
    else s

/-- Modelled from the spec: the step budget that bounds the total number of
executed instructions (section 4.1).  The designated padding no-op is not an
executed instruction (section 3 draws it from outside the instruction
alphabet) and is budget-free, which is what makes raw-mode scores invariant
under padding (sections 4.3 and 8).  The spec fixes no particular number;
the model uses 800, ample for every behavior the claims exercise. -/
def max_execution_steps : Nat := 800

/-- Modelled from the spec: the configured maximum program length. -/
def max_code_length : Nat := 100

/-- Fuel-bounded execution loop: first crosses any padding no-ops for free,
then, while the instruction pointer is still inside the code and fuel
remains, executes one instruction per unit of fuel. -/
def runAux (base : Nat) (code : List Char) (bm : List (Nat × Nat)) (input : List Nat) :
    Nat → MState → MState
  | 0, s => skipPad code bm code.length s
  | fuel + 1, s =>
    if (skipPad code bm code.length s).codeptr < code.length then
      runAux base code bm input fuel
        (execStep base code bm input (skipPad code bm code.length s))
    else skipPad code bm code.length s

/-- Fresh machine state: everything zeroed, one blank tape cell. -/
def initState : MState := ⟨0, 0, [0], 0, []⟩

/-- Modelled from the spec: Machine.execute (sections 4.1 and 5) - run a
program against an input queue under the step budget, from a fresh state. -/
def execute (base : Nat) (code : List Char) (input : List Nat) : MState :=
  runAux base code (buildBracemap code) input max_execution_steps initState

/-- Output sequence produced by one execution. -/
def execOutput (base : Nat) (code : List Char) (input : List Nat) : List Nat :=
  (execute base code input).output

/-- Modelled from the spec: a Task holds the cell base and the input/expected
output specification (section 4.2).  Sequence tasks terminate their input
queue with a 0 sentinel and their expected output likewise, which is what
makes the known code-golf solutions listed in section 8 exact. -/
structure CodeTask where
  base : Nat
  ioSet : List (List Nat × List Nat)
deriving DecidableEq

/-- Modelled from the spec: the per-step reward trace; the final entry is the
authoritative episode score (section 4.3). -/
structure RewardTrace where
  episode_rewards : List ℚ
deriving DecidableEq

/-- Modelled from the spec: asymmetric partial-credit distance between the
produced and the expected output - element-wise absolute difference over the
common prefix, with every missing or extra slot worth the maximum per-slot
distance `base` (section 4.3, raw mode). -/
def absolute_distance (base : Nat) : List Nat → List Nat → Nat
  | p :: ps, t :: ts => (max p t - min p t) + absolute_distance base ps ts
  | ps, ts => base * (ps.length + ts.length)

/-- Modelled from the spec: the behavioral-correctness reward in [0, 1],
saturating at 1 for an exact match and decreasing linearly in the distance
(sections 3 and 4.3). -/
def distance_reward (base : Nat) (pred target : List Nat) : ℚ :=
  if pred = target then 1
  else if target = [] then 0
  else max 0 (1 - (absolute_distance base pred target : ℚ) / ((base : ℚ) * (target.length : ℚ)))

/-- Modelled from the spec: bonus granted for an exactly correct output.  The
value 2 is pinned by the oracle scores of section 8. -/
def correct_bonus : ℚ := 2

/-- Modelled from the spec: weight of the code-brevity term.  The value 1 is
pinned by the oracle scores of section 8. -/
def code_length_bonus : ℚ := 1

/-- Modelled from the spec: the length-sensitivity factor of simplification
mode - clipped-linear, 1 at length 0 and 0 from the maximum length up
(section 4.3; slope pinned by the oracle scores of section 8). -/
def length_bonus_factor (len : Nat) : ℚ :=
  max 0 (1 - (len : ℚ) / (max_code_length : ℚ))

/-- Modelled from the spec: the contribution of one input/output case to the
episode score - behavioral partial credit, plus, when the produced output is
exactly the expected one, the correctness bonus and the (mode-dependent)
brevity bonus (section 4.3). -/
def io_contribution (base : Nat) (code_simplification : Bool) (codeLen : Nat)
    (produced expected : List Nat) : ℚ :=
  distance_reward base produced expected +
    (if produced = expected then
       correct_bonus +
         code_length_bonus * (if code_simplification then length_bonus_factor codeLen else 1)
     else 0)

/-- Modelled from the spec: the best attainable raw sum over all cases, used
to normalize the episode score into [0, 1]. -/
def best_reward (task : CodeTask) : ℚ :=
  (task.ioSet.length : ℚ) * (1 + correct_bonus + code_length_bonus)

/-- True when every input/output case executed to completion within the step
budget (the instruction pointer passed the end of the code). -/
def runs_ok (task : CodeTask) (program : List Char) : Bool :=
  task.ioSet.all (fun io => decide (program.length ≤ (execute task.base program io.1).codeptr))

/-- Modelled from the spec: the scalar episode score - the normalized sum of
per-case contributions when every case ran to completion, and the lowest
achievable score 0 when execution was truncated by the step budget
(sections 4.3 and 7). -/
def finalReward (task : CodeTask) (code_simplification : Bool) (program : List Char) : ℚ :=
  if runs_ok task program then
    (task.ioSet.map (fun io =>
        io_contribution task.base code_simplification program.length
          (execOutput task.base program io.1) io.2)).sum / best_reward task
  else 0

/-- Modelled from the spec: score(program, task) - the dense reward trace,
one entry per instruction, whose last entry is the episode score
(section 4.3). -/
def score (task : CodeTask) (code_simplification : Bool) (program : List Char) : RewardTrace :=
  ⟨List.replicate (program.length - 1) 0 ++ [finalReward task code_simplification program]⟩

/-- Modelled from the spec: rl_batch(n) - n independent scoring callables
bound to the same task (section 4.4). -/
def rl_batch (task : CodeTask) (code_simplification : Bool) (n : Nat) :
    List (List Char → RewardTrace) :=
  List.replicate n (fun program => score task code_simplification program)

/-- Modelled from the spec: the fixed target string of the built-in print
task (the test configures fixed_string=[8,5,12,12,15]). -/
def print_fixed_string : List Nat := [8, 5, 12, 12, 15]

/-- Modelled from the spec: the built-in print task - no input, fixed
expected output, base 27. -/
def printTask : CodeTask := ⟨27, [([], print_fixed_string)]⟩

/-- Concrete input sequences (nonzero values) used by the modelled sequence
tasks; the spec leaves the generator unspecified. -/
def sequenceInputs : List (List Nat) := [[2, 4, 6], [7, 9], [5]]

/-- Modelled from the spec: the built-in reverse task - each input sequence
is terminated by a 0 sentinel and the expected output is the reversed
sequence likewise terminated (section 4.2). -/
def reverseTask : CodeTask := ⟨256, sequenceInputs.map (fun l => (l ++ [0], l.reverse ++ [0]))⟩

/-- Left rotation by one position. -/
def rotate_left (l : List Nat) : List Nat := l.drop 1 ++ l.take 1

/-- Modelled from the spec: the built-in shift-left task - the expected
output is the input sequence rotated left by one, 0-terminated like the
input; this derivation is pinned by the known solution program of section 8. -/
def shiftLeftTask : CodeTask := ⟨256, sequenceInputs.map (fun l => (l ++ [0], rotate_left l ++ [0]))⟩

/-- Modelled from the spec: a structured configuration value. -/
inductive ConfigVal
  | natVal (n : Nat)
  | listVal (l : List Nat)
  | boolVal (b : Bool)
deriving DecidableEq

/-- Modelled from the spec: the recognized configuration keys - target
sequence, length policy, simplification toggle (sections 4.4 and 6). -/
def recognized_config_keys : List String :=
  [("fixed_string"), ("max_code_length"), ("do_code_simplification")]

/-- Modelled from the spec: the registry of built-in task names
(section 4.4). -/
def task_for_name (name : String) : Option CodeTask :=
  if name = ("print") then some printTask
  else if name = ("reverse") then some reverseTask
  else if name = ("shift-left") then some shiftLeftTask
  else none

/-- Modelled from the spec: apply a recognized configuration to a task - a
fixed_string entry replaces the expected output specification. -/
def apply_config (t : CodeTask) (config : List (String × ConfigVal)) : CodeTask :=
  match config.lookup ("fixed_string") with
  | some (ConfigVal.listVal l) => ⟨t.base, [([], l)]⟩
  | _ => t

/-- Modelled from the spec: make_task - resolves a task name and structured
configuration into a Task, failing fast with a descriptive error on an
unknown name or an unrecognized configuration key (section 4.4). -/
def make_task (name : String) (config : List (String × ConfigVal)) : Except String CodeTask :=
  match task_for_name name with
  | none => Except.error (("Unknown task name: ") ++ name)
  | some t =>
    match config.find? (fun kv => !(recognized_config_keys.contains kv.1)) with
    | some kv => Except.error (("Unknown config key: ") ++ kv.1)
    | none => Except.ok (apply_config t config)

/-- The padding helper of the test file: extend a program to `pad_length`
with copies of `pad_char`. -/
def pad (s : List Char) (pad_length : Nat) (pad_char : Char) : List Char :=
  s ++ List.replicate (pad_length - s.length) pad_char

/-- The exact-match print program of the test file. -/
def printProgram : List Char := ("++++++++.---.+++++++..+++.").toList

/-- The partially-correct print program of the test file (its last output is
12 where 15 is expected). -/
def printPartialProgram : List Char := ("++++++++.---.+++++++...").toList

/-- The exact-match reverse program of the test file. -/
def reverseProgram : List Char := (",[>,]+[,<.]").toList

/-- The exact-match shift-left program of the test file. -/
def shiftLeftProgram : List Char := (",>,[.,]<.,.").toList

/-- A program with an unproductive infinite repeat block. -/
def loopProgram : List Char := ("+[]").toList

/-- A program whose block delimiters are all unmatched. -/
def malformedProgram : List Char := ("]]][[[").toList

end CodeTasks

namespace JsonUtils

/-- JSON value tree; float values are modelled by rationals (the claims under
scrutiny concern finite floats only, so NaN and the infinities are out of
scope of the embedding). -/
inductive JValue
  | jnull
  | jbool (b : Bool)
  | jint (n : Int)
  | jfloat (q : ℚ)
  | jstr (s : String)
  | jarr (items : List JValue)
  | jobj (fields : List (String × JValue))

/-- Left-pad a numeral string with zeros to the requested width. -/
def padZeros (s : String) (n : Nat) : String :=
  String.mk (List.replicate (n - s.length) ('0')) ++ s

/-- Fixed-point decimal rendering with exactly `digits` digits after the
point: the embedding of format(o, '.Nf') as used on lines 54 and 83 of
json_utils.py (rounding of the scaled value to the nearest integer). -/
def formatFixed (q : ℚ) (digits : Nat) : String :=
  let n : Int := round (q * (10 : ℚ) ^ digits)
  let sign := if n < 0 then ("-") else ("")
  let a := n.natAbs
  if digits = 0 then sign ++ toString (a : Nat)
  else sign ++ toString (a / 10 ^ digits) ++ (".") ++ padZeros (toString (a % 10 ^ digits)) digits

/-- Modelled from the spec: the repr-style rendering of a finite float
(float.__repr__ / str.format, used on lines 56 and 85 of json_utils.py and
inside the C encoder) - the shortest fixed representation without trailing
zeros, with at least one digit after the point for integral values. -/
def reprFloat (q : ℚ) : String :=
  match (List.range 17).find? (fun d => (q * (10 : ℚ) ^ d).den = 1) with
  | some 0 => formatFixed q 1
  | some d => formatFixed q d
  | none => formatFixed q 17

/-- The constructor parameters of DecimalEncoder that decide how floats are
rendered (lines 44-49 and 94-104): the float_digits setting, the indent
setting, and whether the C accelerator _json.make_encoder was importable
(lines 32-35). -/
structure EncoderParams where
  float_digits : Int
  indent : Option Nat
  c_make_encoder : Bool
deriving DecidableEq

/-- The floatstr closure of DecimalEncoder.iterencode (lines 69-92): fixed
point with float_digits digits when float_digits is nonnegative, repr-style
otherwise (the specials NaN/Infinity are outside the finite-float model). -/
def floatstr (float_digits : Int) (q : ℚ) : String :=
  if 0 ≤ float_digits then formatFixed q float_digits.toNat else reprFloat q

/- Compact JSON serialization parameterized by the float renderer, with the
default separators of json.dumps.  It models the structure-walking encoder
that _make_iterencode / _json.make_encoder (stdlib code, not in src/) build;
string escaping and indentation whitespace are not modelled, as no claim
depends on them. -/
mutual

/-- Serialize one JSON value, rendering floats with `fl`. -/
def serialize (fl : ℚ → String) : JValue → String
  | JValue.jnull => ("null")
  | JValue.jbool true => ("true")
  | JValue.jbool false => ("false")
  | JValue.jint n => toString n
  | JValue.jfloat q => fl q
  | JValue.jstr s => ("\"") ++ s ++ ("\"")
  | JValue.jarr items => ("[") ++ serializeItems fl items ++ ("]")
  | JValue.jobj fields => ("\x7b") ++ serializeFields fl fields ++ ("\x7d")

def serializeItems (fl : ℚ → String) : List JValue → String
  | [] => ("")
  | [v] => serialize fl v
  | v :: rest => serialize fl v ++ (", ") ++ serializeItems fl rest

def serializeFields (fl : ℚ → String) : List (String × JValue) → String
  | [] => ("")
  | [kv] => ("\"") ++ kv.1 ++ ("\": ") ++ serialize fl kv.2
  | kv :: rest => ("\"") ++ kv.1 ++ ("\": ") ++ serialize fl kv.2 ++ (", ") ++ serializeFields fl rest

end

/-- DecimalEncoder.iterencode (lines 59-105): only when called with
_one_shot=True, with the C make_encoder importable and with indent None does
it build the C encoder, whose float rendering is the stock repr and ignores
float_digits entirely (lines 94-99); in every other case it builds the
Python encoder parameterized by the floatstr closure (lines 100-104). -/
def iterencode (p : EncoderParams) (one_shot : Bool) (v : JValue) : String :=
  if one_shot = true ∧ p.c_make_encoder = true ∧ p.indent = none then serialize reprFloat v
  else serialize (floatstr p.float_digits) v

/-- DecimalEncoder.encode (lines 51-57): a float at top level is rendered
directly by the float_digits rule; anything else falls through to the
superclass encode, which delegates to iterencode with _one_shot=True. -/
def encode (p : EncoderParams) (v : JValue) : String :=
  match v with
  | JValue.jfloat q => floatstr p.float_digits q
  | _ => iterencode p true v

/-- Dumps (lines 121-135): json.dumps with cls=DecimalEncoder instantiates
the encoder and calls its encode method. -/
def Dumps (v : JValue) (float_digits : Int) (indent : Option Nat) (c_available : Bool) : String :=
  encode ⟨float_digits, indent, c_available⟩ v

/-- Dump (lines 108-118): json.dump with cls=DecimalEncoder streams the
chunks of iterencode called with _one_shot left at its default False, so the
C-encoder branch is never taken for Dump and floats always go through the
Python floatstr path. -/
def DumpChunks (v : JValue) (float_digits : Int) (indent : Option Nat) (c_available : Bool) :
    String :=
  iterencode ⟨float_digits, indent, c_available⟩ false v

end JsonUtils

attribute [local semireducible] Rat.add Rat.mul Rat.sub Rat.inv

set_option maxRecDepth 1000000

set_option maxHeartbeats 2000000

namespace CodeTasks

/-- The reward trace always ends with the episode score. -/
theorem score_getLast (task : CodeTask) (b : Bool) (program : List Char) :
    (score task b program).episode_rewards.getLast? = some (finalReward task b program) := by
  simp [score, List.getLast?_concat]

/-- The reward trace carries one entry per instruction (one entry total for
the empty program). -/
theorem trace_length (task : CodeTask) (b : Bool) (program : List Char) :
    (score task b program).episode_rewards.length = max 1 program.length := by
  simp [score]
  omega

/-- Reading a replicated list within bounds yields the replicated element. -/
theorem replicate_getD {α : Type} (n i : Nat) (a d : α) (h : i < n) :
    (List.replicate n a).getD i d = a := by
  simp [List.getD, List.getElem?_replicate, h]

/-- The behavioral partial-credit reward is nonnegative. -/
theorem distance_reward_nonneg (base : Nat) (pred target : List Nat) :
    0 ≤ distance_reward base pred target := by
  unfold distance_reward
  split_ifs
  · norm_num
  · exact le_refl 0
  · exact le_max_left 0 _

/-- The behavioral partial-credit reward never exceeds 1. -/
theorem distance_reward_le_one (base : Nat) (pred target : List Nat) :
    distance_reward base pred target ≤ 1 := by
  unfold distance_reward
  split_ifs
  · exact le_refl 1
  · norm_num
  · refine max_le (by norm_num) ?_
    have hd : (0 : ℚ) ≤ (absolute_distance base pred target : ℚ) / ((base : ℚ) * (target.length : ℚ)) := by
      apply div_nonneg
      · exact_mod_cast Nat.zero_le _
      · positivity
    linarith

/-- The brevity factor is nonnegative. -/
theorem length_bonus_factor_nonneg (len : Nat) : 0 ≤ length_bonus_factor len :=
  le_max_left 0 _

/-- The brevity factor does not increase when the program gets longer. -/
theorem length_bonus_factor_antitone (len1 len2 : Nat) (h : len2 ≤ len1) :
    length_bonus_factor len1 ≤ length_bonus_factor len2 := by
  unfold length_bonus_factor
  refine max_le_max (le_refl 0) ?_
  have h1 : ((len2 : ℚ)) ≤ (len1 : ℚ) := by exact_mod_cast h
  have hpos : (0 : ℚ) < (max_code_length : ℚ) := by norm_num [max_code_length]
  have h2 : ((len2 : ℚ)) / (max_code_length : ℚ) ≤ ((len1 : ℚ)) / (max_code_length : ℚ) :=
    (div_le_div_iff_of_pos_right hpos).mpr h1
  linarith

/-- Every per-case contribution is nonnegative. -/
theorem io_contribution_nonneg (base : Nat) (b : Bool) (len : Nat)
    (produced expected : List Nat) :
    0 ≤ io_contribution base b len produced expected := by
  unfold io_contribution
  have h1 := distance_reward_nonneg base produced expected
  have h2 : (0 : ℚ) ≤
      (if produced = expected then
         correct_bonus + code_length_bonus * (if b then length_bonus_factor len else 1)
       else 0) := by
    split_ifs with hpe hb
    · have := length_bonus_factor_nonneg len
      unfold correct_bonus code_length_bonus
      linarith
    · unfold correct_bonus code_length_bonus
      norm_num
    · exact le_refl 0
  linarith

/-- The normalization constant is nonnegative. -/
theorem best_reward_nonneg (task : CodeTask) : 0 ≤ best_reward task := by
  unfold best_reward correct_bonus code_length_bonus
  positivity

/-- The episode score is never below the truncation score 0. -/
theorem finalReward_nonneg (task : CodeTask) (b : Bool) (program : List Char) :
    0 ≤ finalReward task b program := by
  unfold finalReward
  split_ifs
  · apply div_nonneg
    · apply List.sum_nonneg
      intro x hx
      simp only [List.mem_map] at hx
      obtain ⟨io, hio, rfl⟩ := hx
      exact io_contribution_nonneg _ _ _ _ _
    · exact best_reward_nonneg task
  · exact le_refl 0

end CodeTasks

namespace CodeTasks

/-- C3: in simplification mode the unpadded exact-match print program scores
exactly 0.935 (strictly below the raw maximum 1), and the same program padded
to length 100 with the no-op character scores exactly 0.75 (strictly below
its unpadded score), while the produced output is identical (and exactly the
expected string) in both cases. -/
theorem c3_simplification_penalizes_length :
    finalReward printTask true printProgram = 935 / 1000 ∧
    finalReward printTask true (pad printProgram 100 ('[')) = 75 / 100 ∧
    (75 / 100 : ℚ) < 935 / 1000 ∧ (935 / 1000 : ℚ) < 1 ∧
    execOutput printTask.base printProgram [] = print_fixed_string ∧
    execOutput printTask.base (pad printProgram 100 ('[')) [] = print_fixed_string := by
  decide

/-- C4: in raw mode the partially-correct print program padded to length 100
earns the strictly positive partial-credit score 11/45 = 0.2444..., within
0.0001 of the documented 0.2444, strictly below the maximum 1; the score is
the normalized distance reward (1 - 3/(27*5))/4 for the one output position
that is off by 3. -/
theorem c4_raw_partial_credit :
    finalReward printTask false (pad printPartialProgram 100 ('[')) = 11 / 45 ∧
    |(11 / 45 : ℚ) - 2444 / 10000| < 1 / 10000 ∧
    (0 : ℚ) < 11 / 45 ∧ (11 / 45 : ℚ) < 1 ∧
    (11 / 45 : ℚ) = (1 - 3 / (27 * 5)) / 4 ∧
    execOutput printTask.base (pad printPartialProgram 100 ('[')) [] = [8, 5, 12, 12, 12] := by
  decide

/-- C6: scoring is deterministic - the score of a fixed program, task and
mode is one fixed value, and any two of the independent callables returned by
rl_batch produce identical traces on the same program. -/
theorem c6_deterministic_scoring :
    (∀ (task : CodeTask) (code_simplification : Bool) (program : List Char),
        score task code_simplification program = score task code_simplification program) ∧
    (∀ (task : CodeTask) (code_simplification : Bool) (n i j : Nat) (program : List Char),
        i < n → j < n →
        ((rl_batch task code_simplification n).getD i (fun _ => ⟨[]⟩)) program =
          ((rl_batch task code_simplification n).getD j (fun _ => ⟨[]⟩)) program) := by
  refine ⟨fun _ _ _ => rfl, fun task b n i j program hi hj => ?_⟩
  rw [rl_batch, replicate_getD n i _ _ hi, replicate_getD n j _ _ hj]

/-- Witness for C6 at concrete inputs: two distinct callables of a batch of
two agree on the exact print program. -/
theorem c6_deterministic_scoring_witness :
    ((rl_batch printTask true 2).getD 0 (fun _ => ⟨[]⟩)) printProgram =
      ((rl_batch printTask true 2).getD 1 (fun _ => ⟨[]⟩)) printProgram :=
  c6_deterministic_scoring.2 printTask true 2 0 1 printProgram (by decide) (by decide)

/-- C7: every scoring call returns a defined trace ending in a defined
episode score; no score is below the truncation score 0; and the program
with an unproductive infinite repeat block is truncated by the step budget
(its instruction pointer never passes the end of the code) and receives
exactly the lowest achievable score 0 instead of diverging. -/
theorem c7_step_budget_termination :
    (∀ (task : CodeTask) (b : Bool) (program : List Char),
        (score task b program).episode_rewards.getLast? = some (finalReward task b program)) ∧
    (∀ (task : CodeTask) (b : Bool) (program : List Char),
        0 ≤ finalReward task b program) ∧
    ((execute printTask.base (pad loopProgram 100 ('[')) []).codeptr <
        (pad loopProgram 100 ('[')).length ∧
      (score printTask false (pad loopProgram 100 ('['))).episode_rewards.getLast? = some 0) :=
  ⟨score_getLast, finalReward_nonneg, by decide⟩

/-- C8: scoring is total - every program yields a full reward trace (one
entry per instruction); an unmatched block delimiter executes as a pure
no-op (only the instruction pointer advances); and the concrete program
whose delimiters are all unmatched still runs to completion and reduces to
the low score 0 instead of faulting. -/
theorem c8_totality_malformed_noop :
    (∀ (task : CodeTask) (b : Bool) (program : List Char),
        (score task b program).episode_rewards.length = max 1 program.length) ∧
    (∀ (base : Nat) (code : List Char) (input : List Nat) (s : MState),
        (buildBracemap code).lookup s.codeptr = none →
        (code.getD s.codeptr (' ') = ('[') ∨ code.getD s.codeptr (' ') = (']')) →
        execStep base code (buildBracemap code) input s = { s with codeptr := s.codeptr + 1 }) ∧
    ((score printTask false malformedProgram).episode_rewards.getLast? = some 0 ∧
      malformedProgram.length ≤ (execute printTask.base malformedProgram []).codeptr) := by
  refine ⟨trace_length, ?_, by decide⟩
  intro base code input s hnone hc
  have hj : jumpTarget (buildBracemap code) s.codeptr = s.codeptr := by
    simp [jumpTarget, hnone]
  simp only [List.getD_eq_getElem?_getD] at hc
  rcases hc with hc | hc <;> simp [execStep, hc, hj]

/-- Witness for C8 at a concrete input: the leading unmatched close
delimiter of the malformed program is executed as a pure no-op step. -/
theorem c8_totality_malformed_noop_witness :
    execStep 27 malformedProgram (buildBracemap malformedProgram) [] initState =
      { initState with codeptr := initState.codeptr + 1 } :=
  c8_totality_malformed_noop.2.1 27 malformedProgram [] initState (by decide) (by decide)

end CodeTasks

namespace CodeTasks

/-- C9: make_task fails fast at construction time - an unregistered task name
yields a descriptive error naming the task, a configuration containing an
unrecognized key yields a descriptive error naming an unrecognized key (never
silently ignored), and a successfully constructed task never errors later at
scoring time (every scoring call returns a trace ending in a defined score). -/
theorem c9_make_task_fail_fast :
    (∀ (name : String) (config : List (String × ConfigVal)),
        task_for_name name = none →
        make_task name config = Except.error (("Unknown task name: ") ++ name)) ∧
    (∀ (name : String) (config : List (String × ConfigVal)) (t : CodeTask),
        task_for_name name = some t →
        (∃ kv ∈ config, kv.1 ∉ recognized_config_keys) →
        ∃ key, key ∉ recognized_config_keys ∧
          make_task name config = Except.error (("Unknown config key: ") ++ key)) ∧
    (∀ (name : String) (config : List (String × ConfigVal)) (t : CodeTask),
        make_task name config = Except.ok t →
        ∀ (b : Bool) (program : List Char),
          (score t b program).episode_rewards.getLast? = some (finalReward t b program)) := by
  refine ⟨?_, ?_, ?_⟩
  · intro name config h
    simp [make_task, h]
  · intro name config t ht hbad
    obtain ⟨kv, hkv, hnotrec⟩ := hbad
    have hsome : (config.find? (fun kv => !(recognized_config_keys.contains kv.1))).isSome := by
      rw [List.find?_isSome]
      refine ⟨kv, hkv, ?_⟩
      simpa using hnotrec
    obtain ⟨kv2, hfind⟩ := Option.isSome_iff_exists.mp hsome
    have hbad2 : kv2.1 ∉ recognized_config_keys := by
      have := List.find?_some hfind
      simpa using this
    refine ⟨kv2.1, hbad2, ?_⟩
    simp only [make_task, ht, hfind]
  · intro name config t _ b program
    exact score_getLast t b program

/-- Witness for C9 at concrete inputs: an unknown name and an unknown
configuration key are both rejected with descriptive errors. -/
theorem c9_make_task_fail_fast_witness :
    make_task ("frobnicate") [] = Except.error (("Unknown task name: ") ++ ("frobnicate")) ∧
    (∃ key, key ∉ recognized_config_keys ∧
        make_task ("print") [(("bogus"), ConfigVal.boolVal true)] =
          Except.error (("Unknown config key: ") ++ key)) :=
  ⟨c9_make_task_fail_fast.1 ("frobnicate") [] (by decide),
   c9_make_task_fail_fast.2.1 ("print") [(("bogus"), ConfigVal.boolVal true)] printTask
     (by decide) ⟨(("bogus"), ConfigVal.boolVal true), by decide, by decide⟩⟩

end CodeTasks

namespace JsonUtils

/-- C10: the float_digits fixed-point rendering is applied by Dumps to a
top-level float, by the Python fallback path (no C encoder, or an indent
set), and by Dump everywhere (json.dump calls iterencode with _one_shot left
False, so it always takes the Python floatstr path) - but a float nested in
a container serialized by Dumps with indent=None while the C make_encoder is
available goes through the one-shot C encoder and is rendered repr-style,
ignoring float_digits; with the default float_digits = -1 the repr-style
rendering is used. -/
theorem c10_c_encoder_ignores_float_digits :
    Dumps (JValue.jfloat (1 / 2)) 2 none true = ("0.50") ∧
    Dumps (JValue.jarr [JValue.jfloat (1 / 2)]) 2 none false = ("[0.50]") ∧
    Dumps (JValue.jarr [JValue.jfloat (1 / 2)]) 2 (some 2) true = ("[0.50]") ∧
    DumpChunks (JValue.jfloat (1 / 2)) 2 none true = ("0.50") ∧
    DumpChunks (JValue.jarr [JValue.jfloat (1 / 2)]) 2 none true = ("[0.50]") ∧
    Dumps (JValue.jarr [JValue.jfloat (1 / 2)]) 2 none true = ("[0.5]") ∧
    (("[0.5]") : String) ≠ ("[0.50]") ∧
    Dumps (JValue.jfloat (1 / 2)) (-1) none true = ("0.5") := by
  decide

end JsonUtils

namespace CodeTasks

/-- Summing a constant-valued function over a list gives length times the
constant. -/
theorem sum_map_const {α : Type} (l : List α) (f : α → ℚ) (c : ℚ)
    (h : ∀ x ∈ l, f x = c) : (l.map f).sum = l.length * c := by
  induction l with
  | nil => simp
  | cons a as ih =>
    simp only [List.map_cons, List.sum_cons, List.length_cons]
    rw [h a (List.mem_cons_self a as), ih (fun x hx => h x (List.mem_cons_of_mem a hx))]
    push_cast
    ring

/-- C1: for every task with a nonempty case set, a program that runs to
completion and produces exactly the expected output on every case scores
exactly the maximum 1 in raw mode; in particular the listed exact-match
print, reverse and shift-left programs, padded to length 100 with the no-op
character, each end their trace with exactly 1. -/
theorem c1_exact_match_max_raw_score :
    (∀ (task : CodeTask) (program : List Char),
        task.ioSet ≠ [] →
        (∀ io ∈ task.ioSet,
            program.length ≤ (execute task.base program io.1).codeptr ∧
            execOutput task.base program io.1 = io.2) →
        (score task false program).episode_rewards.getLast? = some 1) ∧
    (score printTask false (pad printProgram 100 ('['))).episode_rewards.getLast? = some 1 ∧
    (score reverseTask false (pad reverseProgram 100 ('['))).episode_rewards.getLast? = some 1 ∧
    (score shiftLeftTask false (pad shiftLeftProgram 100 ('['))).episode_rewards.getLast? =
      some 1 := by
  refine ⟨?_, by decide, by decide, by decide⟩
  intro task program hne h
  rw [score_getLast]
  congr 1
  unfold finalReward
  have hok : runs_ok task program = true := by
    unfold runs_ok
    rw [List.all_eq_true]
    intro io hio
    exact decide_eq_true (h io hio).1
  rw [if_pos hok]
  have hmap : (task.ioSet.map (fun io =>
      io_contribution task.base false program.length
        (execOutput task.base program io.1) io.2)).sum = task.ioSet.length * 4 := by
    apply sum_map_const
    intro io hio
    have hout := (h io hio).2
    rw [hout]
    unfold io_contribution
    rw [if_pos rfl]
    unfold distance_reward
    rw [if_pos rfl]
    unfold correct_bonus code_length_bonus
    norm_num
  rw [hmap]
  unfold best_reward correct_bonus code_length_bonus
  have hlen : (task.ioSet.length : ℚ) ≠ 0 := by
    have h0 : task.ioSet.length ≠ 0 := by
      intro h0
      exact hne (List.length_eq_zero.mp h0)
    exact_mod_cast h0
  have hden : ((task.ioSet.length : ℚ)) * (1 + 2 + 1) ≠ 0 := mul_ne_zero hlen (by norm_num)
  rw [div_eq_one_iff_eq hden]
  ring

/-- Witness for C1 at a concrete input: the unpadded exact-match print
program also ends its trace with the maximum raw score. -/
theorem c1_exact_match_max_raw_score_witness :
    (score printTask false printProgram).episode_rewards.getLast? = some 1 :=
  c1_exact_match_max_raw_score.1 printTask printProgram (by decide) (by decide)

end CodeTasks

namespace CodeTasks

/-- The distance of a sequence to itself is zero. -/
theorem absolute_distance_self (base : Nat) (l : List Nat) :
    absolute_distance base l l = 0 := by
  induction l with
  | nil => simp [absolute_distance]
  | cons a as ih =>
    rw [absolute_distance, ih]
    omega

/-- With a positive base, distinct sequences are at positive distance. -/
theorem absolute_distance_pos (base : Nat) (hb : 1 ≤ base) :
    ∀ (p t : List Nat), p ≠ t → 0 < absolute_distance base p t := by
  intro p
  induction p with
  | nil =>
    intro t ht
    cases t with
    | nil => exact absurd rfl ht
    | cons b bs =>
      show 0 < base * (List.length [] + (b :: bs).length)
      exact Nat.mul_pos (by omega) (by simp)
  | cons a as ih =>
    intro t ht
    cases t with
    | nil =>
      show 0 < base * ((a :: as).length + List.length [])
      exact Nat.mul_pos (by omega) (by simp)
    | cons b bs =>
      rw [absolute_distance]
      by_cases hab : a = b
      · have hne : as ≠ bs := fun he => ht (by rw [hab, he])
        have := ih bs hne
        omega
      · have : 0 < max a b - min a b := by omega
        omega

/-- The behavioral reward never increases when the distance to the expected
output grows. -/
theorem distance_reward_mono (base : Nat) (hb : 1 ≤ base) (p1 p2 t : List Nat)
    (hd : absolute_distance base p2 t ≤ absolute_distance base p1 t) :
    distance_reward base p1 t ≤ distance_reward base p2 t := by
  by_cases h2 : p2 = t
  · have h1 : distance_reward base p2 t = 1 := by rw [distance_reward, if_pos h2]
    rw [h1]
    exact distance_reward_le_one base p1 t
  · have hd2pos : 0 < absolute_distance base p2 t := absolute_distance_pos base hb p2 t h2
    have hd1pos : 0 < absolute_distance base p1 t := lt_of_lt_of_le hd2pos hd
    have h1 : p1 ≠ t := by
      intro he
      rw [he, absolute_distance_self] at hd1pos
      omega
    by_cases htn : t = []
    · rw [distance_reward, if_neg h1, if_pos htn, distance_reward, if_neg h2, if_pos htn]
    · rw [distance_reward, if_neg h1, if_neg htn, distance_reward, if_neg h2, if_neg htn]
      refine max_le_max (le_refl 0) ?_
      have hcast : ((absolute_distance base p2 t : ℚ)) ≤ (absolute_distance base p1 t : ℚ) := by
        exact_mod_cast hd
      have hu : (0 : ℚ) < (base : ℚ) * (t.length : ℚ) := by
        have hb2 : (0 : ℚ) < (base : ℚ) := by exact_mod_cast hb
        have hl : (0 : ℚ) < (t.length : ℚ) := by
          have := List.length_pos.mpr htn
          exact_mod_cast this
        exact mul_pos hb2 hl
      have := (div_le_div_iff_of_pos_right hu).mpr hcast
      linarith

/-- The per-case contribution never increases when the distance to the
expected output grows (program length held fixed). -/
theorem io_contribution_mono (base : Nat) (hb : 1 ≤ base) (b : Bool) (len : Nat)
    (p1 p2 t : List Nat)
    (hd : absolute_distance base p2 t ≤ absolute_distance base p1 t) :
    io_contribution base b len p1 t ≤ io_contribution base b len p2 t := by
  unfold io_contribution
  by_cases h2 : p2 = t
  · rw [if_pos h2]
    by_cases h1 : p1 = t
    · rw [if_pos h1]
      have heq : distance_reward base p1 t = distance_reward base p2 t := by rw [h1, h2]
      linarith [heq.le]
    · rw [if_neg h1]
      have ha := distance_reward_le_one base p1 t
      have hb1 : distance_reward base p2 t = 1 := by rw [distance_reward, if_pos h2]
      have hbonus : (0 : ℚ) ≤
          correct_bonus + code_length_bonus * (if b then length_bonus_factor len else 1) := by
        unfold correct_bonus code_length_bonus
        split_ifs
        · linarith [length_bonus_factor_nonneg len]
        · norm_num
      linarith
  · have h1 : p1 ≠ t := by
      intro he
      have hd2pos : 0 < absolute_distance base p2 t := absolute_distance_pos base hb p2 t h2
      rw [he, absolute_distance_self] at hd
      omega
    rw [if_neg h1, if_neg h2]
    have := distance_reward_mono base hb p1 p2 t hd
    linarith

/-- C5: the simplification-mode score is monotonic in both components - for
programs that run to completion, lowering the distance of every produced
output to its expected output (program length held fixed) never lowers the
score, and shortening the program (produced outputs held fixed) never lowers
the score. -/
theorem c5_simplification_monotonic :
    (∀ (task : CodeTask) (p1 p2 : List Char),
        1 ≤ task.base →
        p1.length = p2.length →
        runs_ok task p1 = true → runs_ok task p2 = true →
        (∀ io ∈ task.ioSet,
            absolute_distance task.base (execOutput task.base p2 io.1) io.2 ≤
              absolute_distance task.base (execOutput task.base p1 io.1) io.2) →
        finalReward task true p1 ≤ finalReward task true p2) ∧
    (∀ (task : CodeTask) (p1 p2 : List Char),
        runs_ok task p1 = true → runs_ok task p2 = true →
        (∀ io ∈ task.ioSet, execOutput task.base p1 io.1 = execOutput task.base p2 io.1) →
        p2.length ≤ p1.length →
        finalReward task true p1 ≤ finalReward task true p2) := by
  constructor
  · intro task p1 p2 hb hlen hok1 hok2 hd
    unfold finalReward
    rw [if_pos hok1, if_pos hok2, div_eq_mul_inv, div_eq_mul_inv]
    refine mul_le_mul_of_nonneg_right ?_ (inv_nonneg.mpr (best_reward_nonneg task))
    apply List.sum_le_sum
    intro io hio
    rw [hlen]
    exact io_contribution_mono task.base hb true p2.length _ _ _ (hd io hio)
  · intro task p1 p2 hok1 hok2 hout hlen
    unfold finalReward
    rw [if_pos hok1, if_pos hok2, div_eq_mul_inv, div_eq_mul_inv]
    refine mul_le_mul_of_nonneg_right ?_ (inv_nonneg.mpr (best_reward_nonneg task))
    apply List.sum_le_sum
    intro io hio
    rw [hout io hio]
    unfold io_contribution
    by_cases he : execOutput task.base p2 io.1 = io.2
    · rw [if_pos he, if_pos he]
      have hmono := length_bonus_factor_antitone p1.length p2.length hlen
      have e1 : (if (true : Bool) then length_bonus_factor p1.length else 1) =
          length_bonus_factor p1.length := if_pos rfl
      have e2 : (if (true : Bool) then length_bonus_factor p2.length else 1) =
          length_bonus_factor p2.length := if_pos rfl
      rw [e1, e2]
      unfold correct_bonus code_length_bonus
      linarith
    · rw [if_neg he, if_neg he]

/-- Witness for C5 at concrete inputs: at equal length 100, the partially
correct print program scores no more than the exact one, and the exact print
program padded to length 100 scores no more than its unpadded form. -/
theorem c5_simplification_monotonic_witness :
    finalReward printTask true (pad printPartialProgram 100 ('[')) ≤
        finalReward printTask true (pad printProgram 100 ('[')) ∧
    finalReward printTask true (pad printProgram 100 ('[')) ≤
        finalReward printTask true printProgram :=
  ⟨c5_simplification_monotonic.1 printTask (pad printPartialProgram 100 ('['))
      (pad printProgram 100 ('[')) (by decide) (by decide) (by decide) (by decide) (by decide),
   c5_simplification_monotonic.2 printTask (pad printProgram 100 ('[')) printProgram
      (by decide) (by decide) (by decide) (by decide)⟩

end CodeTasks

namespace CodeTasks

/-- A run of padding characters adds nothing to the brace map: open
delimiters only push onto the stack. -/
theorem bracemapAux_replicate_pad (k : Nat) :
    ∀ (pos : Nat) (stack : List Nat) (acc : List (Nat × Nat)),
      bracemapAux (List.replicate k pad_char) pos stack acc = acc := by
  induction k with
  | zero => intro pos stack acc; rfl
  | succ n ih =>
    intro pos stack acc
    rw [List.replicate_succ, bracemapAux, if_pos (show pad_char = ('[') from rfl)]
    exact ih (pos + 1) (pos :: stack) acc

/-- Appending padding characters leaves the brace-matching pass unchanged. -/
theorem bracemapAux_append_pad (code : List Char) (k : Nat) :
    ∀ (pos : Nat) (stack : List Nat) (acc : List (Nat × Nat)),
      bracemapAux (code ++ List.replicate k pad_char) pos stack acc =
        bracemapAux code pos stack acc := by
  induction code with
  | nil =>
    intro pos stack acc
    rw [List.nil_append, bracemapAux]
    exact bracemapAux_replicate_pad k pos stack acc
  | cons c rest ih =>
    intro pos stack acc
    rw [List.cons_append, bracemapAux, bracemapAux]
    by_cases h1 : c = ('[')
    · rw [if_pos h1, if_pos h1]
      exact ih (pos + 1) (pos :: stack) acc
    · rw [if_neg h1, if_neg h1]
      by_cases h2 : c = (']')
      · rw [if_pos h2, if_pos h2]
        exact ih (pos + 1) stack.tail _
      · rw [if_neg h2, if_neg h2]
        exact ih (pos + 1) stack acc

/-- The brace map of a program padded with the no-op character equals the
brace map of the unpadded program. -/
theorem buildBracemap_append_pad (code : List Char) (k : Nat) :
    buildBracemap (code ++ List.replicate k pad_char) = buildBracemap code :=
  bracemapAux_append_pad code k 0 [] []

/-- A successful association-list lookup produces a member of the list. -/
theorem lookup_mem_pairs : ∀ (l : List (Nat × Nat)) (k v : Nat),
    l.lookup k = some v → (k, v) ∈ l := by
  intro l
  induction l with
  | nil => intro k v h; simp [List.lookup] at h
  | cons p rest ih =>
    intro k v h
    rw [List.lookup] at h
    by_cases hk : k == p.1
    · rw [hk] at h
      simp only [Option.some.injEq] at h
      have h1 : k = p.1 := eq_of_beq hk
      have h2 : v = p.2 := h.symm
      rw [h1, h2]
      exact List.mem_cons_self p rest
    · rw [Bool.not_eq_true] at hk
      rw [hk] at h
      exact List.mem_cons_of_mem p (ih k v h)

/-- Every recorded jump pair lies strictly inside the program. -/
theorem bracemapAux_bounds (code : List Char) :
    ∀ (pos : Nat) (stack : List Nat) (acc : List (Nat × Nat)) (N : Nat),
      pos + code.length ≤ N →
      (∀ x ∈ stack, x < pos) →
      (∀ pq ∈ acc, pq.1 < N ∧ pq.2 < N) →
      ∀ pq ∈ bracemapAux code pos stack acc, pq.1 < N ∧ pq.2 < N := by
  induction code with
  | nil =>
    intro pos stack acc N hN hs ha pq hpq
    rw [bracemapAux] at hpq
    exact ha pq hpq
  | cons c rest ih =>
    intro pos stack acc N hN hs ha pq hpq
    have hN2 : pos + 1 + rest.length ≤ N := by
      simp only [List.length_cons] at hN
      omega
    have hposN : pos < N := by
      simp only [List.length_cons] at hN
      omega
    rw [bracemapAux] at hpq
    by_cases h1 : c = ('[')
    · rw [if_pos h1] at hpq
      refine ih (pos + 1) (pos :: stack) acc N hN2 ?_ ha pq hpq
      intro x hx
      rcases List.mem_cons.mp hx with hx | hx
      · omega
      · have := hs x hx
        omega
    · rw [if_neg h1] at hpq
      by_cases h2 : c = (']')
      · rw [if_pos h2] at hpq
        cases stack with
        | nil =>
          simp only [List.tail_nil, List.isEmpty_nil, if_pos rfl] at hpq
          exact ih (pos + 1) [] acc N hN2 (by intro x hx; simp at hx) ha pq hpq
        | cons q stk =>
          simp only [List.tail_cons, List.isEmpty_cons, List.headD_cons] at hpq
          refine ih (pos + 1) stk ((q, pos) :: (pos, q) :: acc) N hN2 ?_ ?_ pq hpq
          · intro x hx
            have := hs x (List.mem_cons_of_mem q hx)
            omega
          · intro pq2 hpq2
            have hq : q < pos := hs q (List.mem_cons_self q stk)
            rcases List.mem_cons.mp hpq2 with hpq2 | hpq2
            · rw [hpq2]
              exact ⟨by omega, by omega⟩
            · rcases List.mem_cons.mp hpq2 with hpq2 | hpq2
              · rw [hpq2]
                exact ⟨by omega, by omega⟩
              · exact ha pq2 hpq2
      · rw [if_neg h2] at hpq
        refine ih (pos + 1) stack acc N hN2 ?_ ha pq hpq
        intro x hx
        have := hs x hx
        omega

/-- Every pair in a program brace map lies strictly inside the program. -/
theorem buildBracemap_bounds (code : List Char) (pq : Nat × Nat)
    (h : pq ∈ buildBracemap code) : pq.1 < code.length ∧ pq.2 < code.length :=
  bracemapAux_bounds code 0 [] [] code.length (by omega) (by intro x hx; simp at hx)
    (by intro x hx; simp at hx) pq h

/-- Positions past the end of the program are absent from its brace map. -/
theorem lookup_ge_none (code : List Char) (p : Nat) (hp : code.length ≤ p) :
    (buildBracemap code).lookup p = none := by
  cases hl : (buildBracemap code).lookup p with
  | none => rfl
  | some q =>
    have := (buildBracemap_bounds code (p, q) (lookup_mem_pairs _ p q hl)).1
    omega

/-- Jumps from inside the program land inside the program. -/
theorem jumpTarget_lt (code : List Char) (p : Nat) (hp : p < code.length) :
    jumpTarget (buildBracemap code) p < code.length := by
  unfold jumpTarget
  cases hl : (buildBracemap code).lookup p with
  | none => simpa using hp
  | some q =>
    have := (buildBracemap_bounds code (p, q) (lookup_mem_pairs _ p q hl)).2
    simpa using this

end CodeTasks

namespace CodeTasks

/-- Inside the original code, a step of the padded program is exactly a step
of the unpadded program (with the same brace map). -/
theorem execStep_append_pad (base : Nat) (code : List Char) (k : Nat)
    (bm : List (Nat × Nat)) (input : List Nat) (s : MState)
    (h : s.codeptr < code.length) :
    execStep base (code ++ List.replicate k pad_char) bm input s =
      execStep base code bm input s := by
  have hc : (code ++ List.replicate k pad_char).getD s.codeptr (' ') =
      code.getD s.codeptr (' ') := by
    simp [List.getD, List.getElem?_append, h]
  simp only [execStep, hc]

/-- A step taken strictly inside the code never moves the instruction
pointer beyond the end of the code. -/
theorem execStep_codeptr_le (base : Nat) (code : List Char) (input : List Nat) (s : MState)
    (h : s.codeptr < code.length) :
    (execStep base code (buildBracemap code) input s).codeptr ≤ code.length := by
  have hj := jumpTarget_lt code s.codeptr h
  simp only [execStep]
  split_ifs <;> simp <;> omega


/-- Appending padding does not change which in-code positions are padding
no-ops (the characters are unchanged and the brace map is shared). -/
theorem isPadNoOp_append (code : List Char) (k : Nat) (bm : List (Nat × Nat)) (p : Nat)
    (hp : p < code.length) :
    isPadNoOp (code ++ List.replicate k pad_char) bm p = isPadNoOp code bm p := by
  unfold isPadNoOp
  have hc : (code ++ List.replicate k pad_char).getD p (' ') = code.getD p (' ') := by
    simp [List.getD, List.getElem?_append, hp]
  rw [hc]

/-- Every position of the appended padding run is a padding no-op of the
padded program. -/
theorem isPadNoOp_pad_region (code : List Char) (k : Nat) (p : Nat)
    (h1 : code.length ≤ p) (h2 : p < code.length + k) :
    isPadNoOp (code ++ List.replicate k pad_char) (buildBracemap code) p = true := by
  unfold isPadNoOp
  have hc : (code ++ List.replicate k pad_char).getD p (' ') = pad_char := by
    have hn : ¬p < code.length := by omega
    have hr : p - code.length < k := by omega
    simp [List.getD, List.getElem?_append, hn, List.getElem?_replicate, hr]
  rw [hc, lookup_ge_none code p h1]
  rfl

/-- Crossing padding no-ops never moves the pointer past the code. -/
theorem skipPad_codeptr_le (code : List Char) (bm : List (Nat × Nat)) :
    ∀ (j : Nat) (s : MState), s.codeptr ≤ code.length →
      (skipPad code bm j s).codeptr ≤ code.length := by
  intro j
  induction j with
  | zero =>
    intro s h
    rw [skipPad]
    exact h
  | succ j ih =>
    intro s h
    rw [skipPad]
    by_cases hc : s.codeptr < code.length ∧ isPadNoOp code bm s.codeptr = true
    · rw [if_pos hc]
      exact ih _ (by show s.codeptr + 1 ≤ code.length; omega)
    · rw [if_neg hc]
      exact h

/-- From any position at or past the code, the no-op pass of the padded
program runs to the very end of the padding. -/
theorem skipPad_pad_run (code : List Char) (k : Nat) :
    ∀ (j : Nat) (s : MState), code.length ≤ s.codeptr → s.codeptr ≤ code.length + k →
      code.length + k - s.codeptr ≤ j →
      skipPad (code ++ List.replicate k pad_char) (buildBracemap code) j s =
        { s with codeptr := code.length + k } := by
  intro j
  induction j with
  | zero =>
    intro s h1 h2 h3
    have he : s.codeptr = code.length + k := by omega
    rw [skipPad, ← he]
  | succ j ih =>
    intro s h1 h2 h3
    by_cases hlt : s.codeptr < code.length + k
    · have hnoop := isPadNoOp_pad_region code k s.codeptr h1 hlt
      have hL : s.codeptr < (code ++ List.replicate k pad_char).length := by
        simp only [List.length_append, List.length_replicate]
        omega
      rw [skipPad, if_pos ⟨hL, hnoop⟩]
      exact ih _ (by show code.length ≤ s.codeptr + 1; omega)
        (by show s.codeptr + 1 ≤ code.length + k; omega)
        (by show code.length + k - (s.codeptr + 1) ≤ j; omega)
    · have he : s.codeptr = code.length + k := by omega
      have hL : ¬(s.codeptr < (code ++ List.replicate k pad_char).length ∧
          isPadNoOp (code ++ List.replicate k pad_char) (buildBracemap code) s.codeptr = true) := by
        intro hand
        have := hand.1
        simp only [List.length_append, List.length_replicate] at this
        omega
      rw [skipPad, if_neg hL, ← he]

/-- When the unpadded no-op pass stops strictly inside the code (at a real
instruction), the padded no-op pass stops at exactly the same state. -/
theorem skipPad_append_stop_lt (code : List Char) (k : Nat) :
    ∀ (j j' : Nat) (s : MState),
      code.length - s.codeptr ≤ j → code.length - s.codeptr ≤ j' →
      (skipPad code (buildBracemap code) j s).codeptr < code.length →
      skipPad (code ++ List.replicate k pad_char) (buildBracemap code) j' s =
        skipPad code (buildBracemap code) j s := by
  intro j
  induction j with
  | zero =>
    intro j' s hj hj' hstop
    rw [skipPad] at hstop
    omega
  | succ j ih =>
    intro j' s hj hj' hstop
    by_cases hc : s.codeptr < code.length ∧ isPadNoOp code (buildBracemap code) s.codeptr = true
    · rw [skipPad, if_pos hc] at hstop
      cases j' with
      | zero => omega
      | succ j2 =>
        have hcP : s.codeptr < (code ++ List.replicate k pad_char).length ∧
            isPadNoOp (code ++ List.replicate k pad_char) (buildBracemap code) s.codeptr =
              true := by
          refine ⟨?_, ?_⟩
          · simp only [List.length_append, List.length_replicate]
            omega
          · rw [isPadNoOp_append code k _ _ hc.1]
            exact hc.2
        rw [skipPad, if_pos hcP, skipPad, if_pos hc]
        exact ih j2 _ (by show code.length - (s.codeptr + 1) ≤ j; omega)
          (by show code.length - (s.codeptr + 1) ≤ j2; omega) hstop
    · rw [skipPad, if_neg hc] at hstop
      have hnoop : ¬isPadNoOp code (buildBracemap code) s.codeptr = true := by
        intro hn
        exact hc ⟨hstop, hn⟩
      rw [skipPad, if_neg hc]
      cases j' with
      | zero => rw [skipPad]
      | succ j2 =>
        rw [skipPad, if_neg (fun hand =>
          hnoop (by rw [← isPadNoOp_append code k _ _ hstop]; exact hand.2))]

/-- When the unpadded no-op pass runs to the end of the code, the padded
no-op pass runs on through the padding to the end of the padded program,
changing nothing but the instruction pointer. -/
theorem skipPad_append_stop_eq (code : List Char) (k : Nat) :
    ∀ (j j' : Nat) (s : MState),
      code.length - s.codeptr ≤ j → code.length + k - s.codeptr ≤ j' →
      (skipPad code (buildBracemap code) j s).codeptr = code.length →
      skipPad (code ++ List.replicate k pad_char) (buildBracemap code) j' s =
        { skipPad code (buildBracemap code) j s with codeptr := code.length + k } := by
  intro j
  induction j with
  | zero =>
    intro j' s hj hj' hstop
    rw [skipPad] at hstop ⊢
    exact skipPad_pad_run code k j' s (by omega) (by omega) (by omega)
  | succ j ih =>
    intro j' s hj hj' hstop
    by_cases hc : s.codeptr < code.length ∧ isPadNoOp code (buildBracemap code) s.codeptr = true
    · rw [skipPad, if_pos hc] at hstop ⊢
      cases j' with
      | zero => omega
      | succ j2 =>
        have hcP : s.codeptr < (code ++ List.replicate k pad_char).length ∧
            isPadNoOp (code ++ List.replicate k pad_char) (buildBracemap code) s.codeptr =
              true := by
          refine ⟨?_, ?_⟩
          · simp only [List.length_append, List.length_replicate]
            omega
          · rw [isPadNoOp_append code k _ _ hc.1]
            exact hc.2
        rw [skipPad, if_pos hcP]
        exact ih j2 _ (by show code.length - (s.codeptr + 1) ≤ j; omega)
          (by show code.length + k - (s.codeptr + 1) ≤ j2; omega) hstop
    · rw [skipPad, if_neg hc] at hstop ⊢
      exact skipPad_pad_run code k j' s (by omega) (by omega) (by omega)

end CodeTasks

namespace CodeTasks

/-- Full-run simulation: starting inside the code, the padded program run
either gets stuck at exactly the same state as the unpadded run (when the
unpadded run is truncated by the step budget) or ends in the unpadded run
final state with the instruction pointer carried through the budget-free
padding to the end of the padded program (when the unpadded run finishes). -/
theorem runAux_sim (base : Nat) (code : List Char) (k : Nat) (input : List Nat) :
    ∀ (f : Nat) (s : MState), s.codeptr ≤ code.length →
      runAux base (code ++ List.replicate k pad_char) (buildBracemap code) input f s =
        (if code.length ≤ (runAux base code (buildBracemap code) input f s).codeptr
         then { runAux base code (buildBracemap code) input f s with
                  codeptr := code.length + k }
         else runAux base code (buildBracemap code) input f s) := by
  intro f
  induction f with
  | zero =>
    intro s hle
    rw [runAux, runAux]
    have htle : (skipPad code (buildBracemap code) code.length s).codeptr ≤ code.length :=
      skipPad_codeptr_le code (buildBracemap code) code.length s hle
    by_cases hlt : (skipPad code (buildBracemap code) code.length s).codeptr < code.length
    · rw [if_neg (by omega)]
      exact skipPad_append_stop_lt code k code.length _ s (by omega)
        (by simp only [List.length_append, List.length_replicate]; omega) hlt
    · rw [if_pos (by omega)]
      exact skipPad_append_stop_eq code k code.length _ s (by omega)
        (by simp only [List.length_append, List.length_replicate]; omega) (by omega)
  | succ f ih =>
    intro s hle
    rw [runAux, runAux]
    have htle : (skipPad code (buildBracemap code) code.length s).codeptr ≤ code.length :=
      skipPad_codeptr_le code (buildBracemap code) code.length s hle
    by_cases hlt : (skipPad code (buildBracemap code) code.length s).codeptr < code.length
    · have hpadskip :
          skipPad (code ++ List.replicate k pad_char) (buildBracemap code)
              ((code ++ List.replicate k pad_char).length) s =
            skipPad code (buildBracemap code) code.length s :=
        skipPad_append_stop_lt code k code.length _ s (by omega)
          (by simp only [List.length_append, List.length_replicate]; omega) hlt
      rw [hpadskip, if_pos (by simp only [List.length_append, List.length_replicate]; omega),
        if_pos hlt,
        execStep_append_pad base code k (buildBracemap code) input _ hlt]
      exact ih (execStep base code (buildBracemap code) input
          (skipPad code (buildBracemap code) code.length s))
        (execStep_codeptr_le base code input _ hlt)
    · have heq : (skipPad code (buildBracemap code) code.length s).codeptr = code.length := by
        omega
      have hpadskip :
          skipPad (code ++ List.replicate k pad_char) (buildBracemap code)
              ((code ++ List.replicate k pad_char).length) s =
            { skipPad code (buildBracemap code) code.length s with
                codeptr := code.length + k } :=
        skipPad_append_stop_eq code k code.length _ s (by omega)
          (by simp only [List.length_append, List.length_replicate]; omega) heq
      rw [hpadskip,
        if_neg (by simp only [List.length_append, List.length_replicate]; omega),
        if_neg hlt, if_pos (by omega)]

/-- The per-case contribution in raw mode does not depend on the program
length. -/
theorem io_contribution_raw_len (base : Nat) (len1 len2 : Nat) (produced expected : List Nat) :
    io_contribution base false len1 produced expected =
      io_contribution base false len2 produced expected := rfl

/-- A pointwise-equal predicate gives an equal list-all. -/
theorem all_congr_list {α : Type} (l : List α) (f g : α → Bool)
    (h : ∀ x ∈ l, f x = g x) : l.all f = l.all g := by
  induction l with
  | nil => rfl
  | cons a as ih =>
    simp only [List.all_cons]
    rw [h a (List.mem_cons_self a as), ih (fun x hx => h x (List.mem_cons_of_mem a hx))]

/-- C2: the raw-mode episode score of any program on any task is unchanged
by appending any number of the designated no-op padding characters with the
padded length within the configured maximum.  The padding no-ops are
budget-free, so the padded run either finishes with the same output or is
truncated at exactly the same point as the unpadded run. -/
theorem c2_padding_invariance (task : CodeTask) (program : List Char) (k : Nat)
    (_hlen : program.length + k ≤ max_code_length) :
    (score task false (program ++ List.replicate k pad_char)).episode_rewards.getLast? =
      (score task false program).episode_rewards.getLast? := by
  rw [score_getLast, score_getLast]
  congr 1
  have hrel : ∀ (input : List Nat),
      execute task.base (program ++ List.replicate k pad_char) input =
        (if program.length ≤ (execute task.base program input).codeptr
         then { execute task.base program input with codeptr := program.length + k }
         else execute task.base program input) := by
    intro input
    unfold execute
    rw [buildBracemap_append_pad]
    exact runAux_sim task.base program k input max_execution_steps initState
      (by simp [initState])
  have hsucc : ∀ (input : List Nat),
      ((program ++ List.replicate k pad_char).length ≤
          (execute task.base (program ++ List.replicate k pad_char) input).codeptr) ↔
        (program.length ≤ (execute task.base program input).codeptr) := by
    intro input
    rw [hrel input]
    by_cases hU : program.length ≤ (execute task.base program input).codeptr
    · rw [if_pos hU]
      constructor
      · intro _
        exact hU
      · intro _
        show (program ++ List.replicate k pad_char).length ≤ program.length + k
        simp only [List.length_append, List.length_replicate]
        omega
    · rw [if_neg hU]
      constructor
      · intro hP
        exfalso
        have hL : (program ++ List.replicate k pad_char).length = program.length + k := by
          simp only [List.length_append, List.length_replicate]
        omega
      · intro hUyes
        exact absurd hUyes hU
  have hok : runs_ok task (program ++ List.replicate k pad_char) = runs_ok task program := by
    unfold runs_ok
    apply all_congr_list
    intro io _
    exact decide_eq_decide.mpr (hsucc io.1)
  unfold finalReward
  rw [hok]
  by_cases hOK : runs_ok task program = true
  · rw [if_pos hOK, if_pos hOK]
    congr 1
    congr 1
    apply List.map_congr_left
    intro io hio
    unfold execOutput
    rw [hrel io.1]
    by_cases hU : program.length ≤ (execute task.base program io.1).codeptr
    · rw [if_pos hU]
      exact io_contribution_raw_len task.base _ _ _ _
    · rw [if_neg hU]
      exact io_contribution_raw_len task.base _ _ _ _
  · rw [if_neg hOK, if_neg hOK]

/-- Witness for C2 at concrete inputs: appending 74 padding no-ops to the
exact-match print program (reaching the maximum length 100) leaves its
raw-mode final reward unchanged. -/
theorem c2_padding_invariance_witness :
    (score printTask false (printProgram ++ List.replicate 74 pad_char)).episode_rewards.getLast?
      = (score printTask false printProgram).episode_rewards.getLast? :=
  c2_padding_invariance printTask printProgram 74 (by decide)

end CodeTasks
